import Mathlib

/-!
# Verification of the chapter-cracker core logic

Shallow embedding of the two source variants of this repository:

* `src/chapter-cracker.ts`  (namespace `V1` below)
* `src/unnamed/part_000`    (namespace `V2` below)

Both scripts share the same core pipeline: scan the silence-detection
report for `silence_start:`/`silence_end:` timestamps, build a chapter
list (chapter 1 at 0, one further chapter per silence end), and render an
FFMETADATA document with millisecond `START`/`END` values.  They differ in
their numeric capture groups (`(\d+\.?\d*)` in V1 versus `([\d.]+)` in
V2) and in which failure checks they perform (V2 checks the exit codes of
both external invocations and `isNaN` of the probed duration; V1 checks
none of these).

JavaScript numbers are modelled by `JSNum`: an exact rational together
with the special values `NaN` and `±Infinity`.  All arithmetic appearing
in the scripts (`x * 1000`, `Math.floor`, `- 1`) is exact on the decimal
values involved, so the rational model is faithful to the computations
the claims are about.
-/

/-- JavaScript number values as far as the scripts use them: `NaN`,
`Infinity`, `-Infinity`, or an exact (rational) value. -/
inductive JSNum where
  | nan : JSNum
  | inf : JSNum
  | ninf : JSNum
  | val (q : ℚ) : JSNum
deriving DecidableEq

/-! ## Decimal rendering of numbers (JS template-string interpolation) -/

/-- The decimal digit character for `n % 10`-style values. -/
def digitChar : Nat → Char
  | 0 => '0' | 1 => '1' | 2 => '2' | 3 => '3' | 4 => '4'
  | 5 => '5' | 6 => '6' | 7 => '7' | 8 => '8' | _ => '9'

/-- Numeric value of a decimal digit character. -/
def digitVal : Char → Nat
  | '0' => 0 | '1' => 1 | '2' => 2 | '3' => 3 | '4' => 4
  | '5' => 5 | '6' => 6 | '7' => 7 | '8' => 8 | _ => 9

/-- Little-endian decimal digits of `n` (empty for `0`); the first
argument is recursion fuel, sufficient whenever `n ≤ fuel`. -/
def natDigitsRev : Nat → Nat → List Char
  | 0, _ => []
  | fuel + 1, n => if n = 0 then [] else digitChar (n % 10) :: natDigitsRev fuel (n / 10)

/-- Decimal rendering of a natural number, as JS renders a non-negative
integer-valued number in a template string. -/
def natToString (n : Nat) : String :=
  if n = 0 then "0" else ⟨(natDigitsRev n n).reverse⟩

/-- Decimal rendering of an integer, as JS renders an integer-valued
number in a template string. -/
def intToString (i : Int) : String :=
  if i < 0 then "-" ++ natToString i.natAbs else natToString i.natAbs

/-! ## The silence-report scanner

Both scripts run a global regex over the captured stderr text:
`while ((match = re.exec(text)) !== null) push(parseFloat(match[1]))`.
A global `exec` loop finds the leftmost match at or after the current
position and resumes immediately after each match; positions where the
pattern fails are skipped one character at a time.  The scanner below
implements exactly that, parameterised by the literal marker and by the
numeric capture group (which is where the two variants differ). -/

/-- JS `\s` on the characters that can occur here (ASCII whitespace). -/
def isSpaceJS (c : Char) : Bool :=
  c == ' ' || c == '\t' || c == '\n' || c == '\r' || c == '\x0b' || c == '\x0c'

/-- Match a literal character sequence at the head of `s`, returning the
remainder on success. -/
def matchLit : List Char → List Char → Option (List Char)
  | [], s => some s
  | _ :: _, [] => none
  | l :: ls, c :: cs => if l = c then matchLit ls cs else none

/-- The capture group `(\d+\.?\d*)` of `src/chapter-cracker.ts`:
one or more digits, an optional dot, then any digits (greedy). -/
def captureA (s : List Char) : Option (List Char × List Char) :=
  if (s.takeWhile Char.isDigit).isEmpty then none
  else
    match s.dropWhile Char.isDigit with
    | '.' :: r2 =>
      some (s.takeWhile Char.isDigit ++ '.' :: r2.takeWhile Char.isDigit,
        r2.dropWhile Char.isDigit)
    | r1 => some (s.takeWhile Char.isDigit, r1)

/-- Character class `[\d.]`. -/
def digitOrDot (c : Char) : Bool := c.isDigit || c == '.'

/-- The capture group `([\d.]+)` of `src/unnamed/part_000`:
one or more digits-or-dots (greedy). -/
def captureB (s : List Char) : Option (List Char × List Char) :=
  if (s.takeWhile digitOrDot).isEmpty then none
  else some (s.takeWhile digitOrDot, s.dropWhile digitOrDot)

/-- Attempt the whole pattern `LIT\s*(CAPTURE)` at the head of `s`:
the literal marker, greedy whitespace, then the capture group.  Returns
the captured token and the remainder after the match. -/
def matchEvent (lit : List Char) (cap : List Char → Option (List Char × List Char))
    (s : List Char) : Option (List Char × List Char) :=
  match matchLit lit s with
  | none => none
  | some r1 => cap (r1.dropWhile isSpaceJS)

/-- Fuel-indexed scanner loop: try the pattern at each position, emit the
capture and resume after the match, otherwise advance one character.
`fuel ≥ s.length` makes the fuel irrelevant (each step consumes at least
one character). -/
def scanF (lit : List Char) (cap : List Char → Option (List Char × List Char)) :
    Nat → List Char → List (List Char)
  | 0, _ => []
  | _ + 1, [] => []
  | fuel + 1, c :: rest =>
    match matchEvent lit cap (c :: rest) with
    | some (tok, r) => tok :: scanF lit cap fuel r
    | none => scanF lit cap fuel rest

/-- All captures of the global regex `LIT\s*(CAPTURE)` over `s`, in
textual order. -/
def scanEvents (lit : List Char) (cap : List Char → Option (List Char × List Char))
    (s : List Char) : List (List Char) :=
  scanF lit cap s.length s

/-- The literal `silence_start:` of both start regexes. -/
def startLit : List Char :=
  ['s', 'i', 'l', 'e', 'n', 'c', 'e', '_', 's', 't', 'a', 'r', 't', ':']

/-- The literal `silence_end:` of both end regexes. -/
def endLit : List Char :=
  ['s', 'i', 'l', 'e', 'n', 'c', 'e', '_', 'e', 'n', 'd', ':']

/-! ## `parseFloat` on captured tokens

Every captured token consists of digits and dots only, so `parseFloat`
reads an optional integer part, an optional dot, then a fractional part,
and yields `NaN` exactly when no digit was read before a second dot. -/

/-- Numeric value of a digit string, most significant digit first. -/
def digitsToNat (l : List Char) : Nat :=
  l.foldl (fun acc c => 10 * acc + digitVal c) 0

/-- JS `parseFloat` restricted to strings over `[0-9.]` (the only strings
the capture groups can produce): longest prefix of the form
`digits [. digits]` determines the value; no leading digit and no digit
after a single leading dot gives `NaN`. -/
def parseTok (t : List Char) : JSNum :=
  match t.dropWhile Char.isDigit with
  | '.' :: r2 =>
    if (t.takeWhile Char.isDigit).isEmpty && (r2.takeWhile Char.isDigit).isEmpty then JSNum.nan
    else JSNum.val ((digitsToNat (t.takeWhile Char.isDigit) : ℚ) +
      (digitsToNat (r2.takeWhile Char.isDigit) : ℚ) / (10 : ℚ) ^ (r2.takeWhile Char.isDigit).length)
  | _ =>
    if (t.takeWhile Char.isDigit).isEmpty then JSNum.nan
    else JSNum.val (digitsToNat (t.takeWhile Char.isDigit))

/-! ## JS arithmetic used by the encoder -/

/-- `Math.floor(x * 1000)` on a JS number. -/
def floorMs : JSNum → JSNum
  | JSNum.nan => JSNum.nan
  | JSNum.inf => JSNum.inf
  | JSNum.ninf => JSNum.ninf
  | JSNum.val q => JSNum.val ((⌊q * 1000⌋ : ℤ) : ℚ)

/-- `x - 1` on a JS number. -/
def jsPred : JSNum → JSNum
  | JSNum.nan => JSNum.nan
  | JSNum.inf => JSNum.inf
  | JSNum.ninf => JSNum.ninf
  | JSNum.val q => JSNum.val (q - 1)

/-- Template-string rendering `${n}` of the (integer-valued or special)
numbers the encoder emits. -/
def numOut : JSNum → String
  | JSNum.nan => "NaN"
  | JSNum.inf => "Infinity"
  | JSNum.ninf => "-Infinity"
  | JSNum.val q => intToString ⌊q⌋

/-! ## Boundary inference and metadata encoding (identical in both files) -/

/-- The `silenceEnds.forEach((time, index) => push({start: time, title:
`Chapter ${index + 2}`}))` loop, with `idx` the running `index + 2`. -/
def chaptersFrom (idx : Nat) : List JSNum → List (JSNum × String)
  | [] => []
  | t :: rest => (t, "Chapter " ++ natToString idx) :: chaptersFrom (idx + 1) rest

/-- Chapter markers: first chapter at 0 titled `"Chapter 1"`, then one
chapter per silence-end timestamp (`chapter-cracker.ts` lines 123–127,
`part_000` lines 173–178). -/
def chapters (silenceEnds : List JSNum) : List (JSNum × String) :=
  (JSNum.val 0, "Chapter 1") :: chaptersFrom 2 silenceEnds

/-- One pass of the metadata loop from the current chapter onwards: the
current chapter's `END` is the next chapter's start millisecond minus one,
or `Math.floor(totalDuration * 1000)` for the last chapter. -/
def metadataRecords : List (JSNum × String) → JSNum → String
  | [], _ => ""
  | c :: rest, totalDuration =>
    "[CHAPTER]\nTIMEBASE=1/1000\n" ++
    "START=" ++ numOut (floorMs c.1) ++ "\n" ++
    "END=" ++ numOut (match rest with
      | next :: _ => jsPred (floorMs next.1)
      | [] => floorMs totalDuration) ++ "\n" ++
    "title=" ++ c.2 ++ "\n\n" ++
    metadataRecords rest totalDuration

/-- The generated ffmetadata document (`chapter-cracker.ts` lines
130–143, `part_000` lines 184–198). -/
def metadata (chs : List (JSNum × String)) (totalDuration : JSNum) : String :=
  ";FFMETADATA1\n" ++ metadataRecords chs totalDuration

/-! ## The two variants -/

namespace V1

/-- Tokens captured by `/silence_start:\s*(\d+\.?\d*)/g` over the
silencedetect stderr text (`chapter-cracker.ts` lines 89–94). -/
def silenceStartToks (text : String) : List (List Char) :=
  scanEvents startLit captureA text.data

/-- Tokens captured by `/silence_end:\s*(\d+\.?\d*)/g`
(`chapter-cracker.ts` lines 90–97). -/
def silenceEndToks (text : String) : List (List Char) :=
  scanEvents endLit captureA text.data

/-- `silenceStarts`: the parsed start timestamps. -/
def silenceStarts (text : String) : List JSNum :=
  (silenceStartToks text).map parseTok

/-- `silenceEnds`: the parsed end timestamps. -/
def silenceEnds (text : String) : List JSNum :=
  (silenceEndToks text).map parseTok

end V1

namespace V2

/-- Tokens captured by `/silence_start:\s*([\d.]+)/g` over the
silencedetect stderr text (`part_000` lines 113–120). -/
def silenceStartToks (text : String) : List (List Char) :=
  scanEvents startLit captureB text.data

/-- Tokens captured by `/silence_end:\s*([\d.]+)/g`
(`part_000` lines 114–124). -/
def silenceEndToks (text : String) : List (List Char) :=
  scanEvents endLit captureB text.data

/-- `silenceStarts`: the parsed start timestamps. -/
def silenceStarts (text : String) : List JSNum :=
  (silenceStartToks text).map parseTok

/-- `silenceEnds`: the parsed end timestamps. -/
def silenceEnds (text : String) : List JSNum :=
  (silenceEndToks text).map parseTok

end V2

/-- The failure exits the scripts can take before writing the metadata
document (each is a `console.error` followed by `exit(1)` in the source;
the spec's names for them are `ExternalToolFailure` for the silencedetect
invocation, a probe failure for ffprobe, and `InvalidDuration` for an
unparseable duration). -/
inductive ToolError where
  | externalToolFailure (diagnostic : String) : ToolError
  | probeFailure (diagnostic : String) : ToolError
  | invalidDuration : ToolError
deriving DecidableEq

/-- Core run of `chapter-cracker.ts` from the captured silencedetect
stderr to the metadata document.  The script never inspects the exit
status of either external process and never validates `totalDuration`
(lines 74–143 contain no check), so every input produces a document. -/
def V1.run (_silenceExit : Int) (silenceStderr : String) (_probeExit : Int)
    (_probeStderr : String) (totalDuration : JSNum) : Except ToolError String :=
  Except.ok (metadata (chapters (V1.silenceEnds silenceStderr)) totalDuration)

/-- Core run of `part_000`: fails if silencedetect exited non-zero
(printing its stderr, lines 101–105), then if ffprobe exited non-zero
(lines 151–155), then if the parsed duration is `NaN` (lines 160–163);
otherwise produces the metadata document. -/
def V2.run (silenceExit : Int) (silenceStderr : String) (probeExit : Int)
    (probeStderr : String) (totalDuration : JSNum) : Except ToolError String :=
  if silenceExit ≠ 0 then Except.error (ToolError.externalToolFailure silenceStderr)
  else if probeExit ≠ 0 then Except.error (ToolError.probeFailure probeStderr)
  else if totalDuration = JSNum.nan then Except.error ToolError.invalidDuration
  else Except.ok (metadata (chapters (V2.silenceEnds silenceStderr)) totalDuration)

/-- A capture group never leaves a remainder longer than its input. -/
def CapOK (cap : List Char → Option (List Char × List Char)) : Prop :=
  ∀ s t r, cap s = some (t, r) → r.length ≤ s.length

/-- Value of a little-endian digit list (used to reason about decimal
rendering). -/
def valRev : List Char → Nat
  | [] => 0
  | c :: r => digitVal c + 10 * valRev r

/-- Concatenation of a list of strings (used to state the
record-per-chapter structure of the document). -/
def strConcat : List String → String
  | [] => ""
  | s :: rest => s ++ strConcat rest

/-- Spec-side description of the `i`-th chapter record (0-indexed) for
silence-end values `E` and duration `d`: `START` is the floored
millisecond of the `i`-th chapter start (`0` for `i = 0`, else
`E[i-1]`), `END` is the next chapter's start millisecond minus one for a
non-last record and the floored duration millisecond for the last, and
the title is the ordinal `Chapter i+1`. -/
def specRecordJS (E : List JSNum) (d : JSNum) (i : Nat) : String :=
  "[CHAPTER]\nTIMEBASE=1/1000\n" ++
  "START=" ++ numOut (floorMs ((JSNum.val 0 :: E).getD i (JSNum.val 0))) ++ "\n" ++
  "END=" ++ (if i < E.length then numOut (jsPred (floorMs (E.getD i (JSNum.val 0))))
    else numOut (floorMs d)) ++ "\n" ++
  "title=" ++ ("Chapter " ++ natToString (i + 1)) ++ "\n\n"

/-- Emitted `START` millisecond of chapter `i` (0-indexed) for numeric
silence-end values `S`: the floor of the chapter start times 1000. -/
def startMsSpec (S : List ℚ) (i : Nat) : ℤ := ⌊(0 :: S).getD i 0 * 1000⌋

/-- Emitted `END` millisecond of chapter `i`: the next chapter's start
millisecond minus one, or the floored duration millisecond for the last
chapter. -/
def endMsSpec (S : List ℚ) (D : ℚ) (i : Nat) : ℤ :=
  if i < S.length then startMsSpec S (i + 1) - 1 else ⌊D * 1000⌋

/-- The `i`-th chapter record over numeric silence-end values. -/
def specRecordQ (S : List ℚ) (D : ℚ) (i : Nat) : String :=
  "[CHAPTER]\nTIMEBASE=1/1000\n" ++
  "START=" ++ intToString (startMsSpec S i) ++ "\n" ++
  "END=" ++ intToString (endMsSpec S D i) ++ "\n" ++
  "title=" ++ ("Chapter " ++ natToString (i + 1)) ++ "\n\n"

/-- Whether the literal `lit` occurs (as a contiguous subsequence) at
some position of `s`: the decidable "a pattern position exists" check
used to state the no-match case of the Ingestor. -/
def occurs (lit : List Char) : List Char → Bool
  | [] => (matchLit lit []).isSome
  | c :: rest => (matchLit lit (c :: rest)).isSome || occurs lit rest

/-- Well-formed numeric token as the detection engine emits one: one or
more digits, optionally followed by a dot and further digits. -/
def tokWF (t : List Char) : Bool :=
  !(t.takeWhile Char.isDigit).isEmpty &&
    (match t.dropWhile Char.isDigit with
     | [] => true
     | '.' :: r2 => r2.all Char.isDigit
     | _ => false)

/-- Whether a token begins with a digit (the condition under which the
two variants' capture groups agree in value). -/
def headDigit : List Char → Bool
  | [] => false
  | c :: _ => c.isDigit

/-- A capture group that consumes a well-formed token up to a newline
exactly (both variants' capture groups do). -/
def CapTok (cap : List Char → Option (List Char × List Char)) : Prop :=
  ∀ (t s : List Char), tokWF t = true → cap (t ++ '\n' :: s) = some (t, '\n' :: s)

/-- One engine report line `silence_start: <tok>` with trailing newline. -/
def startLine (t : List Char) : List Char := startLit ++ ' ' :: (t ++ ['\n'])

/-- One engine report line `silence_end: <tok>` with trailing newline. -/
def endLine (t : List Char) : List Char := endLit ++ ' ' :: (t ++ ['\n'])

/-- A chronological silence report as the detection engine emits it:
matched start/end pairs in order, optionally followed by a dangling
start line (an interval still open at end of stream). -/
def reportText : List (List Char × List Char) → Option (List Char) → List Char
  | [], none => []
  | [], some t => startLine t
  | (a, b) :: rest, dang => startLine a ++ (endLine b ++ reportText rest dang)

/-! # Theorems -/

section ScannerLemmas

lemma matchLit_length {lit s r : List Char} (h : matchLit lit s = some r) :
    lit.length + r.length = s.length := by
  induction lit generalizing s with
  | nil =>
    simp only [matchLit, Option.some.injEq] at h
    subst h
    simp
  | cons l ls ih =>
    cases s with
    | nil => simp [matchLit] at h
    | cons c cs =>
      by_cases hc : l = c
      · simp only [matchLit, if_pos hc] at h
        have := ih h
        simp only [List.length_cons]
        omega
      · simp [matchLit, hc] at h

lemma length_dropWhile_le (p : Char → Bool) (l : List Char) :
    (l.dropWhile p).length ≤ l.length := by
  induction l with
  | nil => simp
  | cons c cs ih =>
    by_cases h : p c
    · rw [List.dropWhile_cons_of_pos h]
      simp only [List.length_cons]
      omega
    · rw [List.dropWhile_cons_of_neg (by simp [h])]

lemma capOK_A : CapOK captureA := by
  intro s t r h
  unfold captureA at h
  split at h
  · exact absurd h (by simp)
  · have h1 : (s.dropWhile Char.isDigit).length ≤ s.length := length_dropWhile_le _ _
    split at h
    next r2 heq =>
      simp only [Option.some.injEq, Prod.mk.injEq] at h
      obtain ⟨-, h3⟩ := h
      subst h3
      have h2 := length_dropWhile_le Char.isDigit r2
      rw [heq] at h1
      simp only [List.length_cons] at h1
      omega
    next r1 hne =>
      simp only [Option.some.injEq, Prod.mk.injEq] at h
      obtain ⟨-, h3⟩ := h
      subst h3
      omega

lemma capOK_B : CapOK captureB := by
  intro s t r h
  unfold captureB at h
  split at h
  · exact absurd h (by simp)
  · simp only [Option.some.injEq, Prod.mk.injEq] at h
    obtain ⟨-, h3⟩ := h
    subst h3
    exact length_dropWhile_le digitOrDot s

lemma matchEvent_length {l0 : Char} {ls s t r : List Char}
    {cap : List Char → Option (List Char × List Char)} (hcap : CapOK cap)
    (h : matchEvent (l0 :: ls) cap s = some (t, r)) : r.length < s.length := by
  unfold matchEvent at h
  cases hm : matchLit (l0 :: ls) s with
  | none => rw [hm] at h; exact absurd h (by simp)
  | some r1 =>
    rw [hm] at h
    have h1 := matchLit_length hm
    have h2 := length_dropWhile_le isSpaceJS r1
    have h3 := hcap _ _ _ h
    simp only [List.length_cons] at h1
    omega

lemma scanF_fuel {l0 : Char} {ls : List Char}
    {cap : List Char → Option (List Char × List Char)} (hcap : CapOK cap) :
    ∀ f₁ f₂ s, s.length ≤ f₁ → s.length ≤ f₂ →
      scanF (l0 :: ls) cap f₁ s = scanF (l0 :: ls) cap f₂ s := by
  intro f₁
  induction f₁ with
  | zero =>
    intro f₂ s h1 _
    have : s = [] := by
      cases s with
      | nil => rfl
      | cons c cs => simp at h1
    subst this
    cases f₂ <;> rfl
  | succ f ih =>
    intro f₂ s h1 h2
    cases s with
    | nil => cases f₂ <;> rfl
    | cons c cs =>
      cases f₂ with
      | zero => simp at h2
      | succ f' =>
        simp only [scanF]
        cases hm : matchEvent (l0 :: ls) cap (c :: cs) with
        | none =>
          dsimp only
          simp only [List.length_cons] at h1 h2
          exact ih f' cs (by omega) (by omega)
        | some pr =>
          obtain ⟨tok, r⟩ := pr
          dsimp only
          have hlen := matchEvent_length hcap hm
          simp only [List.length_cons] at h1 h2 hlen
          rw [ih f' r (by omega) (by omega)]

lemma scanEvents_cons {l0 : Char} {ls : List Char}
    {cap : List Char → Option (List Char × List Char)} (hcap : CapOK cap)
    (c : Char) (rest : List Char) :
    scanEvents (l0 :: ls) cap (c :: rest) =
      match matchEvent (l0 :: ls) cap (c :: rest) with
      | some (tok, r) => tok :: scanEvents (l0 :: ls) cap r
      | none => scanEvents (l0 :: ls) cap rest := by
  unfold scanEvents
  simp only [List.length_cons, scanF]
  cases hm : matchEvent (l0 :: ls) cap (c :: rest) with
  | none => rfl
  | some pr =>
    obtain ⟨tok, r⟩ := pr
    dsimp only
    have hlen := matchEvent_length hcap hm
    simp only [List.length_cons] at hlen
    rw [scanF_fuel hcap rest.length r.length r (by omega) (le_refl _)]

lemma scanEvents_skip_head {l0 : Char} {ls : List Char}
    {cap : List Char → Option (List Char × List Char)} (hcap : CapOK cap)
    {c : Char} (hc : c ≠ l0) (rest : List Char) :
    scanEvents (l0 :: ls) cap (c :: rest) = scanEvents (l0 :: ls) cap rest := by
  rw [scanEvents_cons hcap]
  have hm : matchEvent (l0 :: ls) cap (c :: rest) = none := by
    unfold matchEvent
    have hl : matchLit (l0 :: ls) (c :: rest) = none := by
      unfold matchLit
      rw [if_neg (fun h : l0 = c => hc h.symm)]
    rw [hl]
  rw [hm]

lemma scanEvents_skip_run {l0 : Char} {ls : List Char}
    {cap : List Char → Option (List Char × List Char)} (hcap : CapOK cap)
    {pre : List Char} (hpre : ∀ c ∈ pre, c ≠ l0) (s : List Char) :
    scanEvents (l0 :: ls) cap (pre ++ s) = scanEvents (l0 :: ls) cap s := by
  induction pre with
  | nil => rfl
  | cons c cs ih =>
    rw [List.cons_append,
      scanEvents_skip_head hcap (hpre c (by simp)) (cs ++ s),
      ih (fun d hd => hpre d (by simp [hd]))]

end ScannerLemmas

section RenderingLemmas

lemma digitVal_digitChar {m : Nat} (h : m < 10) : digitVal (digitChar m) = m := by
  interval_cases m <;> rfl

lemma valRev_natDigitsRev : ∀ fuel n, n ≤ fuel → valRev (natDigitsRev fuel n) = n := by
  intro fuel
  induction fuel with
  | zero =>
    intro n h
    interval_cases n
    rfl
  | succ f ih =>
    intro n h
    by_cases h0 : n = 0
    · subst h0
      simp [natDigitsRev, valRev]
    · have hd : n / 10 < n := Nat.div_lt_self (Nat.pos_of_ne_zero h0) (by norm_num)
      rw [natDigitsRev, if_neg h0]
      rw [valRev, digitVal_digitChar (Nat.mod_lt _ (by norm_num)), ih (n / 10) (by omega)]
      omega

lemma natDigitsRev_ne_nil {n : Nat} (h : n ≠ 0) : natDigitsRev n n ≠ [] := by
  obtain ⟨f, rfl⟩ := Nat.exists_eq_succ_of_ne_zero h
  rw [natDigitsRev, if_neg h]
  simp

lemma natToString_injective : ∀ a b : Nat, natToString a = natToString b → a = b := by
  intro a b h
  unfold natToString at h
  by_cases ha : a = 0 <;> by_cases hb : b = 0
  · omega
  · rw [if_pos ha, if_neg hb] at h
    have hdata : ['0'] = (natDigitsRev b b).reverse := congrArg String.data h
    have h2 := congrArg List.reverse hdata
    simp only [List.reverse_reverse] at h2
    have h3 := congrArg valRev h2
    rw [valRev_natDigitsRev b b (le_refl _)] at h3
    have h4 : valRev (['0'].reverse) = 0 := rfl
    rw [h4] at h3
    omega
  · rw [if_neg ha, if_pos hb] at h
    have hdata : (natDigitsRev a a).reverse = ['0'] := congrArg String.data h
    have : valRev (natDigitsRev a a) = valRev ['0'] := by
      have := congrArg List.reverse hdata
      simp only [List.reverse_reverse] at this
      rw [this]
      rfl
    rw [valRev_natDigitsRev a a (le_refl _)] at this
    simp [valRev, digitVal] at this
    omega
  · rw [if_neg ha, if_neg hb] at h
    have hdata : (natDigitsRev a a).reverse = (natDigitsRev b b).reverse :=
      congrArg String.data h
    have h2 := congrArg List.reverse hdata
    simp only [List.reverse_reverse] at h2
    have h3 := congrArg valRev h2
    rw [valRev_natDigitsRev a a (le_refl _), valRev_natDigitsRev b b (le_refl _)] at h3
    exact h3

lemma natToString_ne_empty (n : Nat) : natToString n ≠ "" := by
  unfold natToString
  by_cases h : n = 0
  · rw [if_pos h]
    decide
  · rw [if_neg h]
    intro hc
    have : (natDigitsRev n n).reverse = [] := congrArg String.data hc
    rw [List.reverse_eq_nil_iff] at this
    exact natDigitsRev_ne_nil h this

end RenderingLemmas

section InferencerLemmas

lemma chaptersFrom_length : ∀ (E : List JSNum) (idx : Nat), (chaptersFrom idx E).length = E.length := by
  intro E
  induction E with
  | nil => intro idx; rfl
  | cons t rest ih =>
    intro idx
    rw [chaptersFrom]
    simp only [List.length_cons, ih]

lemma chaptersFrom_map_fst : ∀ (E : List JSNum) (idx : Nat),
    (chaptersFrom idx E).map Prod.fst = E := by
  intro E
  induction E with
  | nil => intro idx; rfl
  | cons t rest ih =>
    intro idx
    rw [chaptersFrom]
    simp only [List.map_cons, ih]

lemma chaptersFrom_map_snd : ∀ (E : List JSNum) (idx : Nat),
    (chaptersFrom idx E).map Prod.snd =
      (List.range E.length).map (fun k => "Chapter " ++ natToString (idx + k)) := by
  intro E
  induction E with
  | nil => intro idx; rfl
  | cons t rest ih =>
    intro idx
    rw [chaptersFrom]
    simp only [List.map_cons, List.length_cons, List.range_succ_eq_map, List.map_map, ih]
    rw [List.cons_eq_cons]
    refine ⟨by simp, List.map_congr_left ?_⟩
    intro a _
    simp only [Function.comp_apply]
    congr 2
    omega

/-- C1: For every silence-end sequence `S` the Boundary Inferencer
produces exactly `|S| + 1` chapters; the chapter starts are `0` followed
by the elements of `S` verbatim, in order (duplicates kept, values at or
beyond the duration kept unclamped — the code never consults the duration
here); and the titles are the ordinals `"Chapter 1"` … `"Chapter n"` in
order.  The total duration plays no role in the inference, so the claim's
"for every duration `D > 0`" holds vacuously of this computation. -/
theorem c1_inferencer_exact_chapters (S : List JSNum) :
    (chapters S).length = S.length + 1 ∧
    (chapters S).map Prod.fst = JSNum.val 0 :: S ∧
    (chapters S).map Prod.snd =
      (List.range (S.length + 1)).map (fun k => "Chapter " ++ natToString (k + 1)) := by
  refine ⟨?_, ?_, ?_⟩
  · rw [chapters]
    simp [chaptersFrom_length]
  · rw [chapters]
    simp [chaptersFrom_map_fst]
  · rw [chapters]
    simp only [List.map_cons, chaptersFrom_map_snd, List.range_succ_eq_map, List.map_map,
      List.map_cons]
    rw [List.cons_eq_cons]
    refine ⟨by decide, List.map_congr_left ?_⟩
    intro a _
    simp only [Function.comp_apply]
    congr 2
    omega

end InferencerLemmas

section EncoderLemmas

lemma metadataRecords_closed : ∀ (E : List JSNum) (st : JSNum) (idx : Nat) (d : JSNum),
    metadataRecords ((st, "Chapter " ++ natToString idx) :: chaptersFrom (idx + 1) E) d =
    strConcat ((List.range (E.length + 1)).map (fun i =>
      "[CHAPTER]\nTIMEBASE=1/1000\n" ++
      "START=" ++ numOut (floorMs ((st :: E).getD i (JSNum.val 0))) ++ "\n" ++
      "END=" ++ (if i < E.length then numOut (jsPred (floorMs (E.getD i (JSNum.val 0))))
        else numOut (floorMs d)) ++ "\n" ++
      "title=" ++ ("Chapter " ++ natToString (idx + i)) ++ "\n\n")) := by
  intro E
  induction E with
  | nil =>
    intro st idx d
    simp [metadataRecords, chaptersFrom, strConcat, List.range_succ_eq_map]
  | cons t rest ih =>
    intro st idx d
    rw [chaptersFrom, metadataRecords]
    rw [List.length_cons, List.range_succ_eq_map, List.map_cons, List.map_map, strConcat]
    congr 1
    · simp
    · rw [ih t (idx + 1) d]
      congr 1
      apply List.map_congr_left
      intro i _
      simp only [Function.comp_apply, List.getD_cons_succ, List.length_cons,
        Nat.succ_eq_add_one, Nat.add_lt_add_iff_right]
      have ht : idx + 1 + i = idx + (i + 1) := by omega
      rw [ht]

end EncoderLemmas

lemma metadata_chapters_closed (E : List JSNum) (d : JSNum) :
    metadata (chapters E) d =
      ";FFMETADATA1\n" ++ strConcat ((List.range (E.length + 1)).map (specRecordJS E d)) := by
  rw [metadata, chapters]
  rw [show ("Chapter 1" : String) = "Chapter " ++ natToString 1 by decide]
  rw [show chaptersFrom 2 E = chaptersFrom (1 + 1) E from rfl]
  rw [metadataRecords_closed E (JSNum.val 0) 1 d]
  congr 1
  apply congrArg
  apply List.map_congr_left
  intro i _
  unfold specRecordJS
  rw [show 1 + i = i + 1 by omega]

/-- C4: For every silence-end value list `E` and duration `d`, the
emitted document is exactly the literal header line `;FFMETADATA1`
followed by one record per chapter in ascending chapter order, each
record being the lines `[CHAPTER]`, `TIMEBASE=1/1000`, `START=<ms>`,
`END=<ms>`, `title=Chapter <ordinal>` terminated by exactly one blank
line, with no trailing content after the final record (the document is
the concatenation of the records and nothing else). -/
theorem c4_document_byte_structure (E : List JSNum) (d : JSNum) :
    metadata (chapters E) d =
      ";FFMETADATA1\n" ++ strConcat ((List.range (E.length + 1)).map (specRecordJS E d)) ∧
    (List.range (E.length + 1)).length = (chapters E).length := by
  refine ⟨metadata_chapters_closed E d, ?_⟩
  simp [chapters, chaptersFrom_length]

lemma numOut_floorMs_val (q : ℚ) : numOut (floorMs (JSNum.val q)) = intToString ⌊q * 1000⌋ := by
  simp [numOut, floorMs, Int.floor_intCast]

lemma numOut_jsPred_floorMs_val (q : ℚ) :
    numOut (jsPred (floorMs (JSNum.val q))) = intToString (⌊q * 1000⌋ - 1) := by
  simp only [floorMs, jsPred, numOut]
  congr 1
  have h : ((⌊q * 1000⌋ : ℤ) : ℚ) - 1 = ((⌊q * 1000⌋ - 1 : ℤ) : ℚ) := by push_cast; ring
  rw [h, Int.floor_intCast]

lemma getD_map_val : ∀ (S : List ℚ) (i : Nat),
    (S.map JSNum.val).getD i (JSNum.val 0) = JSNum.val (S.getD i 0) := by
  intro S
  induction S with
  | nil => intro i; cases i <;> rfl
  | cons q rest ih =>
    intro i
    cases i with
    | zero => rfl
    | succ j => simp only [List.getD_cons_succ]; exact ih j

lemma specRecordJS_val (S : List ℚ) (D : ℚ) (i : Nat) :
    specRecordJS (S.map JSNum.val) (JSNum.val D) i = specRecordQ S D i := by
  unfold specRecordJS specRecordQ endMsSpec startMsSpec
  rw [show (JSNum.val 0 :: S.map JSNum.val) = (0 :: S).map JSNum.val from rfl,
    getD_map_val, numOut_floorMs_val, List.length_map]
  by_cases h : i < S.length
  · rw [if_pos h, if_pos h, getD_map_val, numOut_jsPred_floorMs_val, List.getD_cons_succ]
  · rw [if_neg h, if_neg h, numOut_floorMs_val]

/-- C2: For chapter sequences produced by the Inferencer from numeric
silence-end values `S` and any duration `D`, the Encoder emits for every
non-last chapter `i` the end value `⌊chapter[i+1].start * 1000⌋ - 1`,
which equals `START[i+1] - 1` as emitted, and emits the last chapter's
end as `⌊D * 1000⌋`: the document equals the record list built from
`startMsSpec`/`endMsSpec`, where `endMsSpec` satisfies exactly those two
equations. -/
theorem c2_encoder_end_times (S : List ℚ) (D : ℚ) :
    metadata (chapters (S.map JSNum.val)) (JSNum.val D) =
      ";FFMETADATA1\n" ++ strConcat ((List.range (S.length + 1)).map (specRecordQ S D)) ∧
    (∀ i, i < S.length → endMsSpec S D i = startMsSpec S (i + 1) - 1) ∧
    endMsSpec S D S.length = ⌊D * 1000⌋ := by
  refine ⟨?_, ?_, ?_⟩
  · rw [metadata_chapters_closed, List.length_map]
    congr 1
    exact congrArg strConcat (List.map_congr_left fun i _ => specRecordJS_val S D i)
  · intro i h
    unfold endMsSpec
    rw [if_pos h]
  · unfold endMsSpec
    rw [if_neg (lt_irrefl _)]

/-- Witness for C2 at `S = [5]`, `D = 10`: the non-last record's END is
`START[1] - 1 = 4999` and the last record's END is `10000`. -/
theorem c2_encoder_end_times_witness :
    endMsSpec [5] 10 0 = startMsSpec [5] 1 - 1 ∧ endMsSpec [5] 10 1 = ⌊(10 : ℚ) * 1000⌋ :=
  ⟨(c2_encoder_end_times [5] 10).2.1 0 (by norm_num),
    (c2_encoder_end_times [5] 10).2.2⟩

section ErrorHandlingClaims

/-- C3 counterexample: on the non-monotone silence-end sequence
`[5.0, 3.0]` the Inferencer does not fail with any
`MalformedSilenceReport`; it produces a three-chapter sequence whose
starts are `0, 5, 3` in order (a chapter with `start > next.start`),
refuting the claim that a failure is raised instead of producing a
sequence. -/
theorem c3_counterexample :
    chapters [JSNum.val 5, JSNum.val 3] =
      [(JSNum.val 0, "Chapter 1"), (JSNum.val 5, "Chapter 2"), (JSNum.val 3, "Chapter 3")] := rfl

/-- C3 amended: the Inferencer performs no monotonicity validation and
has no failure path at all: for every silence-end sequence, monotone or
not, it produces `|S| + 1` chapters whose starts are `0` followed by the
sequence verbatim. -/
theorem c3_no_monotonicity_validation (E : List JSNum) :
    (chapters E).length = E.length + 1 ∧ (chapters E).map Prod.fst = JSNum.val 0 :: E := by
  constructor
  · rw [chapters]
    simp [chaptersFrom_length]
  · rw [chapters]
    simp [chaptersFrom_map_fst]

/-- C5 counterexample: with a `NaN` total duration (the `parseFloat`
result of unparseable ffprobe output), `chapter-cracker.ts` does not
fail with any `InvalidDuration`: it encodes and returns a metadata
document containing `END=NaN`. -/
theorem c5_counterexample :
    V1.run 0 "x" 0 "" JSNum.nan =
      Except.ok ";FFMETADATA1\n[CHAPTER]\nTIMEBASE=1/1000\nSTART=0\nEND=NaN\ntitle=Chapter 1\n\n" := by
  have h0 : ⌊(0 : ℚ) * 1000⌋ = 0 := by norm_num
  have hends : V1.silenceEnds "x" = [] := by decide
  rw [V1.run, hends]
  simp only [metadata, chapters, chaptersFrom, metadataRecords, numOut, floorMs, h0,
    Int.floor_intCast]
  exact congrArg Except.ok (by decide)

/-- C5 amended: only the `part_000` variant validates the duration, and
only against `NaN`: it fails before encoding when the parsed duration is
`NaN`, but accepts `Infinity` (encoding `END=Infinity`), and the
`chapter-cracker.ts` variant performs no duration validation at all and
always encodes a document. -/
theorem c5_duration_validation_partial :
    (∀ ss ps : String, V2.run 0 ss 0 ps JSNum.nan = Except.error ToolError.invalidDuration) ∧
    (∀ ss ps : String, V2.run 0 ss 0 ps JSNum.inf =
      Except.ok (metadata (chapters (V2.silenceEnds ss)) JSNum.inf)) ∧
    (∀ (ss ps : String) (d : JSNum), V1.run 0 ss 0 ps d =
      Except.ok (metadata (chapters (V1.silenceEnds ss)) d)) := by
  refine ⟨fun ss ps => ?_, fun ss ps => ?_, fun ss ps d => rfl⟩
  · simp [V2.run]
  · simp [V2.run]

/-- C6 counterexample: with the silence-detection invocation exiting with
status 1, `chapter-cracker.ts` does not fail with any
`ExternalToolFailure`: it proceeds to inference on the captured text and
returns a complete metadata document. -/
theorem c6_counterexample :
    V1.run 1 "boom" 0 "" (JSNum.val 1) =
      Except.ok ";FFMETADATA1\n[CHAPTER]\nTIMEBASE=1/1000\nSTART=0\nEND=1000\ntitle=Chapter 1\n\n" := by
  have h0 : ⌊(0 : ℚ) * 1000⌋ = 0 := by norm_num
  have h1 : ⌊(1 : ℚ) * 1000⌋ = 1000 := by norm_num
  have hends : V1.silenceEnds "boom" = [] := by decide
  rw [V1.run, hends]
  simp only [metadata, chapters, chaptersFrom, metadataRecords, numOut, floorMs, h0, h1,
    Int.floor_intCast]
  exact congrArg Except.ok (by decide)

/-- C6 amended: only the `part_000` variant checks the silence-detection
exit status; on a non-zero status it fails with the engine's diagnostic
text before any inference, while `chapter-cracker.ts` never inspects the
exit status and always proceeds to inference and encoding. -/
theorem c6_exit_status_check_partial (se : Int) (hse : se ≠ 0) (ss : String) (pe : Int)
    (ps : String) (d : JSNum) :
    V2.run se ss pe ps d = Except.error (ToolError.externalToolFailure ss) ∧
    V1.run se ss pe ps d = Except.ok (metadata (chapters (V1.silenceEnds ss)) d) := by
  constructor
  · simp [V2.run, hse]
  · rfl

/-- Witness for the C6 amended theorem at exit status 1. -/
theorem c6_exit_status_check_partial_witness :
    V2.run 1 "diag" 0 "" (JSNum.val 1) = Except.error (ToolError.externalToolFailure "diag") ∧
    V1.run 1 "diag" 0 "" (JSNum.val 1) =
      Except.ok (metadata (chapters (V1.silenceEnds "diag")) (JSNum.val 1)) :=
  c6_exit_status_check_partial 1 (by decide) "diag" 0 "" (JSNum.val 1)

end ErrorHandlingClaims

section InvariantLemmas

lemma scanF_tok {lit : List Char} {cap : List Char → Option (List Char × List Char)}
    (P : List Char → Prop) (hP : ∀ s t r, cap s = some (t, r) → P t) :
    ∀ (fuel : Nat) (s tok : List Char), tok ∈ scanF lit cap fuel s → P tok := by
  intro fuel
  induction fuel with
  | zero => intro s tok h; simp [scanF] at h
  | succ f ih =>
    intro s tok h
    cases s with
    | nil => simp [scanF] at h
    | cons c rest =>
      rw [scanF] at h
      cases hm : matchEvent lit cap (c :: rest) with
      | none =>
        rw [hm] at h
        exact ih rest tok h
      | some pr =>
        obtain ⟨t2, r⟩ := pr
        rw [hm] at h
        dsimp only at h
        rcases List.mem_cons.mp h with h | h
        · subst h
          unfold matchEvent at hm
          cases hl : matchLit lit (c :: rest) with
          | none => rw [hl] at hm; exact absurd hm (by simp)
          | some r1 =>
            rw [hl] at hm
            exact hP _ _ _ hm
        · exact ih r tok h

lemma captureA_tok {s t r : List Char} (h : captureA s = some (t, r)) :
    (t.takeWhile Char.isDigit).isEmpty = false := by
  unfold captureA at h
  split at h
  · exact absurd h (by simp)
  next hne =>
    cases hd1 : s.takeWhile Char.isDigit with
    | nil => rw [hd1] at hne; simp at hne
    | cons c d1' =>
      have hc : c.isDigit = true :=
        List.mem_takeWhile_imp (by rw [hd1]; exact List.mem_cons_self c d1')
      split at h
      · simp only [Option.some.injEq, Prod.mk.injEq] at h
        obtain ⟨ht, -⟩ := h
        rw [← ht, hd1, List.cons_append, List.takeWhile_cons_of_pos hc]
        rfl
      · simp only [Option.some.injEq, Prod.mk.injEq] at h
        obtain ⟨ht, -⟩ := h
        rw [← ht, hd1, List.takeWhile_cons_of_pos hc]
        rfl

lemma parseTok_val_nonneg {t : List Char}
    (h : (t.takeWhile Char.isDigit).isEmpty = false) :
    ∃ q : ℚ, parseTok t = JSNum.val q ∧ 0 ≤ q := by
  unfold parseTok
  split
  · rw [h]
    simp only [Bool.false_and, Bool.false_eq_true, if_false]
    exact ⟨_, rfl, by positivity⟩
  · rw [if_neg (by rw [h]; simp)]
    exact ⟨_, rfl, by positivity⟩

lemma v1_silenceEnds_val_nonneg (text : String) :
    ∀ x ∈ V1.silenceEnds text, ∃ q : ℚ, x = JSNum.val q ∧ 0 ≤ q := by
  intro x hx
  unfold V1.silenceEnds at hx
  simp only [List.mem_map] at hx
  obtain ⟨tok, htok, rfl⟩ := hx
  unfold V1.silenceEndToks scanEvents at htok
  have hprop := scanF_tok (fun u => (u.takeWhile Char.isDigit).isEmpty = false)
    (fun s t r hc => captureA_tok hc) _ _ _ htok
  exact parseTok_val_nonneg hprop

lemma append_left_cancel_str {p a b : String} (h : p ++ a = p ++ b) : a = b := by
  apply String.ext
  have h2 := congrArg String.data h
  simp only [String.data_append] at h2
  exact List.append_cancel_left h2

lemma chapters_titles (E : List JSNum) :
    (chapters E).map Prod.snd =
      (List.range (E.length + 1)).map (fun k => "Chapter " ++ natToString (k + 1)) := by
  rw [chapters]
  simp only [List.map_cons, chaptersFrom_map_snd, List.range_succ_eq_map, List.map_map,
    List.map_cons]
  rw [List.cons_eq_cons]
  refine ⟨by decide, List.map_congr_left ?_⟩
  intro a _
  simp only [Function.comp_apply]
  congr 2
  omega

lemma chapters_titles_nodup (E : List JSNum) : ((chapters E).map Prod.snd).Nodup := by
  rw [chapters_titles]
  refine List.Nodup.map ?_ (List.nodup_range _)
  intro a b h
  have h2 := append_left_cancel_str h
  have h3 := natToString_injective _ _ h2
  omega

lemma chapters_titles_ne_empty (E : List JSNum) :
    ∀ ti ∈ (chapters E).map Prod.snd, ti ≠ "" := by
  rw [chapters_titles]
  intro ti hti
  simp only [List.mem_map] at hti
  obtain ⟨k, -, rfl⟩ := hti
  intro hc
  have h2 := congrArg String.data hc
  simp only [String.data_append] at h2
  exact absurd h2 (by simp)

lemma startMs_nonneg (S : List ℚ) (hS : ∀ q ∈ S, 0 ≤ q) (i : Nat) :
    0 ≤ startMsSpec S i := by
  unfold startMsSpec
  apply Int.le_floor.mpr
  push_cast
  apply mul_nonneg ?_ (by norm_num)
  rcases Nat.lt_or_ge i (0 :: S).length with h | h
  · rw [List.getD_eq_getElem _ _ h]
    have hmem : ((0 : ℚ) :: S)[i] ∈ (0 : ℚ) :: S := List.getElem_mem h
    rcases List.mem_cons.mp hmem with h2 | h2
    · rw [h2]
    · exact hS _ h2
  · rw [List.getD_eq_default _ _ h]

lemma startMs_lt_endMs (S : List ℚ) (D : ℚ)
    (hgap : ∀ i, i + 1 < S.length → ⌊S.getD i 0 * 1000⌋ + 2 ≤ ⌊S.getD (i + 1) 0 * 1000⌋)
    (hlast : S ≠ [] → ⌊S.getD (S.length - 1) 0 * 1000⌋ < ⌊D * 1000⌋) :
    ∀ i, 1 ≤ i → i ≤ S.length → startMsSpec S i < endMsSpec S D i := by
  intro i h1 h2
  obtain ⟨j, rfl⟩ : ∃ j, i = j + 1 := ⟨i - 1, by omega⟩
  unfold endMsSpec startMsSpec
  simp only [List.getD_cons_succ]
  by_cases hlt : j + 1 < S.length
  · rw [if_pos hlt]
    have := hgap j (by omega)
    omega
  · rw [if_neg hlt]
    have hne : S ≠ [] := by
      intro hS
      subst hS
      simp at h2
    have hj : j = S.length - 1 := by
      have := List.length_pos.mpr hne
      omega
    rw [hj]
    exact hlast hne

end InvariantLemmas

set_option maxRecDepth 4000 in
/-- C7 counterexample: duplicate silence-ends `[5.0, 5.0]` with duration
10 produce a second (non-first) chapter whose emitted values are
`START=5000`, `END=4999`, violating `end > start`; the full document
shows the emitted record. -/
theorem c7_counterexample :
    metadata (chapters [JSNum.val 5, JSNum.val 5]) (JSNum.val 10) =
      ";FFMETADATA1\n[CHAPTER]\nTIMEBASE=1/1000\nSTART=0\nEND=4999\ntitle=Chapter 1\n\n[CHAPTER]\nTIMEBASE=1/1000\nSTART=5000\nEND=4999\ntitle=Chapter 2\n\n[CHAPTER]\nTIMEBASE=1/1000\nSTART=5000\nEND=10000\ntitle=Chapter 3\n\n" ∧
    ¬ startMsSpec [5, 5] 1 < endMsSpec [5, 5] 10 1 := by
  constructor
  · have h1 : ⌊(5 : ℚ) * 1000⌋ = 5000 := by norm_num
    have h2 : ⌊(0 : ℚ) * 1000⌋ = 0 := by norm_num
    have h3 : ⌊(10 : ℚ) * 1000⌋ = 10000 := by norm_num
    have h4 : ((5000 : ℤ) : ℚ) - 1 = ((4999 : ℤ) : ℚ) := by norm_num
    simp only [metadata, metadataRecords, chapters, chaptersFrom, numOut, floorMs, jsPred,
      h1, h2, h3, h4, Int.floor_intCast]
    decide
  · unfold endMsSpec startMsSpec
    rw [if_pos (by simp)]
    simp only [List.getD_cons_succ, List.getD_cons_zero]
    have h1 : ⌊(5 : ℚ) * 1000⌋ = 5000 := by norm_num
    omega

/-- C7 amended: every produced chapter start is a non-negative number
(shown for the `chapter-cracker.ts` ingestion, whose capture group
guarantees numeric tokens), every chapter title is non-empty, ordinal and
unique; and the emitted values satisfy `end > start` for every chapter
except possibly the first provided consecutive silence-end milliseconds
differ by at least 2 and the last silence-end millisecond is below the
duration millisecond — duplicate (or 1ms-apart) silence-ends violate
`end > start` for a non-first chapter, as the counterexample shows. -/
theorem c7_chapter_invariants_amended :
    (∀ (text : String), ∀ x ∈ V1.silenceEnds text, ∃ q : ℚ, x = JSNum.val q ∧ 0 ≤ q) ∧
    (∀ E : List JSNum, ((chapters E).map Prod.snd).Nodup ∧
      ∀ ti ∈ (chapters E).map Prod.snd, ti ≠ "") ∧
    (∀ S : List ℚ, (∀ q ∈ S, 0 ≤ q) → ∀ i, 0 ≤ startMsSpec S i) ∧
    (∀ (S : List ℚ) (D : ℚ),
      (∀ i, i + 1 < S.length → ⌊S.getD i 0 * 1000⌋ + 2 ≤ ⌊S.getD (i + 1) 0 * 1000⌋) →
      (S ≠ [] → ⌊S.getD (S.length - 1) 0 * 1000⌋ < ⌊D * 1000⌋) →
      ∀ i, 1 ≤ i → i ≤ S.length → startMsSpec S i < endMsSpec S D i) :=
  ⟨v1_silenceEnds_val_nonneg,
    fun E => ⟨chapters_titles_nodup E, chapters_titles_ne_empty E⟩,
    startMs_nonneg,
    startMs_lt_endMs⟩

/-- Witness for the C7 amended theorem: a parsed end value from a real
report is a non-negative number, titles of a two-chapter run are unique,
and with `S = [5]`, `D = 10` the gap conditions hold and give
`end > start` for the second chapter. -/
theorem c7_chapter_invariants_amended_witness :
    (∃ q : ℚ, JSNum.val ((7 : ℕ) : ℚ) = JSNum.val q ∧ 0 ≤ q) ∧
    ((chapters [JSNum.val 5]).map Prod.snd).Nodup ∧
    0 ≤ startMsSpec [5] 1 ∧
    startMsSpec [5] 1 < endMsSpec [5] 10 1 :=
  ⟨c7_chapter_invariants_amended.1 "silence_end: 7" _ (by decide),
    (c7_chapter_invariants_amended.2.1 [JSNum.val 5]).1,
    c7_chapter_invariants_amended.2.2.1 [5]
      (by
        intro q hq
        rw [List.mem_singleton] at hq
        subst hq
        norm_num) 1,
    c7_chapter_invariants_amended.2.2.2 [5] 10
      (by
        intro i hi
        simp only [List.length_singleton] at hi
        omega)
      (by
        intro hne
        simp only [List.length_singleton, List.getD_cons_zero]
        norm_num)
      1 (le_refl 1) (by simp)⟩

section IngestionSafetyClaims

lemma scanF_eq_nil_of_not_occurs {lit : List Char}
    {cap : List Char → Option (List Char × List Char)} :
    ∀ (fuel : Nat) (s : List Char), occurs lit s = false → scanF lit cap fuel s = [] := by
  intro fuel
  induction fuel with
  | zero => intro s _; rfl
  | succ f ih =>
    intro s h
    cases s with
    | nil => rfl
    | cons c rest =>
      rw [occurs, Bool.or_eq_false_iff] at h
      obtain ⟨h1, h2⟩ := h
      have hnone : matchLit lit (c :: rest) = none := by
        cases hml : matchLit lit (c :: rest) with
        | none => rfl
        | some r1 => rw [hml] at h1; simp at h1
      have hm : matchEvent lit cap (c :: rest) = none := by
        unfold matchEvent
        rw [hnone]
      rw [scanF, hm]
      exact ih rest h2

lemma scanA_parse_val (lit : List Char) (s : List Char) :
    ∀ x ∈ (scanEvents lit captureA s).map parseTok, ∃ q : ℚ, x = JSNum.val q ∧ 0 ≤ q := by
  intro x hx
  simp only [List.mem_map] at hx
  obtain ⟨tok, htok, rfl⟩ := hx
  unfold scanEvents at htok
  have hprop := scanF_tok (fun u => (u.takeWhile Char.isDigit).isEmpty = false)
    (fun s t r hc => captureA_tok hc) _ _ _ htok
  exact parseTok_val_nonneg hprop

/-- C8 counterexample: the `part_000` capture group `([\d.]+)` can match
the digitless token `"."`, whose `parseFloat` is `NaN`: on the report
text `"silence_end: ."` the extracted end sequence is `[NaN]`, refuting
the claim that a matched pattern's timestamp cannot parse to `NaN`. -/
theorem c8_counterexample : V2.silenceEnds "silence_end: ." = [JSNum.nan] := by decide

/-- C8 amended: in `chapter-cracker.ts` the capture group `(\d+\.?\d*)`
requires a leading digit, so every extracted timestamp (start or end)
parses to a number, never `NaN`; in `part_000` the capture group
`([\d.]+)` can match a digitless token parsing to `NaN`.  In both
variants, if neither lexical pattern occurs anywhere in the report text,
all four output sequences are empty, without error. -/
theorem c8_token_parsing_amended :
    (∀ text : String, ∀ x ∈ V1.silenceEnds text, ∃ q : ℚ, x = JSNum.val q ∧ 0 ≤ q) ∧
    (∀ text : String, ∀ x ∈ V1.silenceStarts text, ∃ q : ℚ, x = JSNum.val q ∧ 0 ≤ q) ∧
    (∀ text : String, occurs startLit text.data = false → occurs endLit text.data = false →
      V1.silenceStarts text = [] ∧ V1.silenceEnds text = [] ∧
      V2.silenceStarts text = [] ∧ V2.silenceEnds text = []) := by
  refine ⟨fun text => scanA_parse_val endLit text.data,
    fun text => scanA_parse_val startLit text.data, fun text hs he => ?_⟩
  unfold V1.silenceStarts V1.silenceEnds V2.silenceStarts V2.silenceEnds
  unfold V1.silenceStartToks V1.silenceEndToks V2.silenceStartToks V2.silenceEndToks
  unfold scanEvents
  rw [scanF_eq_nil_of_not_occurs _ _ hs, scanF_eq_nil_of_not_occurs _ _ he,
    scanF_eq_nil_of_not_occurs _ _ hs, scanF_eq_nil_of_not_occurs _ _ he]
  exact ⟨rfl, rfl, rfl, rfl⟩

/-- Witness for the C8 amended theorem: a real token parses to a number,
and the patternless text `"hello"` yields four empty sequences. -/
theorem c8_token_parsing_amended_witness :
    (∃ q : ℚ, JSNum.val ((3 : ℕ) : ℚ) = JSNum.val q ∧ 0 ≤ q) ∧
    (V1.silenceStarts "hello" = [] ∧ V1.silenceEnds "hello" = [] ∧
      V2.silenceStarts "hello" = [] ∧ V2.silenceEnds "hello" = []) :=
  ⟨c8_token_parsing_amended.1 "silence_end: 3" _ (by decide),
    c8_token_parsing_amended.2.2 "hello" (by decide) (by decide)⟩

end IngestionSafetyClaims

section TokenLemmas

lemma digitOrDot_of_digit {c : Char} (h : c.isDigit = true) : digitOrDot c = true := by
  unfold digitOrDot
  rw [h]
  rfl

lemma digitOrDot_ne {c x : Char} (h : digitOrDot c = true) (hx : digitOrDot x = false) :
    c ≠ x := by
  intro he
  subst he
  rw [h] at hx
  exact absurd hx (by simp)

lemma isSpaceJS_eq_false_of_digitOrDot {c : Char} (h : digitOrDot c = true) :
    isSpaceJS c = false := by
  rcases hb : isSpaceJS c with _ | _
  · rfl
  · exfalso
    unfold isSpaceJS at hb
    simp only [Bool.or_eq_true, beq_iff_eq] at hb
    rcases hb with ((((h1 | h1) | h1) | h1) | h1) | h1 <;>
      first
      | (subst h1; exact absurd h (by decide))

lemma takeWhile_append_all {p : Char → Bool} :
    ∀ {l : List Char}, (∀ c ∈ l, p c = true) →
      ∀ r, (l ++ r).takeWhile p = l ++ r.takeWhile p := by
  intro l
  induction l with
  | nil => intro _ r; simp
  | cons c cs ih =>
    intro h r
    rw [List.cons_append, List.takeWhile_cons_of_pos (h c (by simp)),
      ih (fun d hd => h d (by simp [hd])) r]
    rfl

lemma dropWhile_append_all {p : Char → Bool} :
    ∀ {l : List Char}, (∀ c ∈ l, p c = true) →
      ∀ r, (l ++ r).dropWhile p = r.dropWhile p := by
  intro l
  induction l with
  | nil => intro _ r; simp
  | cons c cs ih =>
    intro h r
    rw [List.cons_append, List.dropWhile_cons_of_pos (h c (by simp)),
      ih (fun d hd => h d (by simp [hd])) r]

lemma tokWF_shape {t : List Char} (h : tokWF t = true) :
    ∃ d1 m, t = d1 ++ m ∧ d1 ≠ [] ∧ (∀ c ∈ d1, c.isDigit = true) ∧
      (m = [] ∨ ∃ d2, m = '.' :: d2 ∧ ∀ c ∈ d2, c.isDigit = true) := by
  unfold tokWF at h
  rw [Bool.and_eq_true] at h
  obtain ⟨h1, h2⟩ := h
  refine ⟨t.takeWhile Char.isDigit, t.dropWhile Char.isDigit,
    (List.takeWhile_append_dropWhile _ _).symm, ?_,
    fun c hc => List.mem_takeWhile_imp hc, ?_⟩
  · intro he
    rw [he] at h1
    simp at h1
  · split at h2
    next heq => exact Or.inl heq
    next r2 heq => exact Or.inr ⟨r2, heq, List.all_eq_true.mp h2⟩
    next => exact absurd h2 (by simp)

lemma tokWF_all_dOD {t : List Char} (h : tokWF t = true) :
    ∀ c ∈ t, digitOrDot c = true := by
  obtain ⟨d1, m, rfl, -, hd1, hm⟩ := tokWF_shape h
  intro c hc
  rcases List.mem_append.mp hc with hc | hc
  · exact digitOrDot_of_digit (hd1 c hc)
  · rcases hm with rfl | ⟨d2, rfl, hd2⟩
    · simp at hc
    · rcases List.mem_cons.mp hc with rfl | hc
      · rfl
      · exact digitOrDot_of_digit (hd2 c hc)

lemma tokWF_headDigit {t : List Char} (h : tokWF t = true) : headDigit t = true := by
  obtain ⟨d1, m, rfl, hd1ne, hd1, -⟩ := tokWF_shape h
  cases d1 with
  | nil => exact absurd rfl hd1ne
  | cons c cs => exact hd1 c (by simp)

lemma isEmpty_eq_false_of_ne_nil {l : List Char} (h : l ≠ []) : l.isEmpty = false := by
  cases l with
  | nil => exact absurd rfl h
  | cons c cs => rfl

lemma capTokA : CapTok captureA := by
  intro t s ht
  obtain ⟨d1, m, rfl, hd1ne, hd1, hm⟩ := tokWF_shape ht
  have hie : d1.isEmpty = false := isEmpty_eq_false_of_ne_nil hd1ne
  unfold captureA
  rcases hm with rfl | ⟨d2, rfl, hd2⟩
  · rw [List.append_nil]
    have htake : ((d1 ++ '\n' :: s).takeWhile Char.isDigit) = d1 := by
      rw [takeWhile_append_all hd1, List.takeWhile_cons_of_neg (by decide)]
      simp
    have hdrop : ((d1 ++ '\n' :: s).dropWhile Char.isDigit) = '\n' :: s := by
      rw [dropWhile_append_all hd1, List.dropWhile_cons_of_neg (by decide)]
    rw [htake, hdrop, hie]
    simp only [Bool.false_eq_true, if_false]
    split
    next heq => exact absurd heq (by simp)
    next => rfl
  · have hassoc : (d1 ++ '.' :: d2) ++ '\n' :: s = d1 ++ '.' :: (d2 ++ '\n' :: s) := by
      simp
    rw [hassoc]
    have htake : ((d1 ++ '.' :: (d2 ++ '\n' :: s)).takeWhile Char.isDigit) = d1 := by
      rw [takeWhile_append_all hd1, List.takeWhile_cons_of_neg (by decide)]
      simp
    have hdrop : ((d1 ++ '.' :: (d2 ++ '\n' :: s)).dropWhile Char.isDigit) =
        '.' :: (d2 ++ '\n' :: s) := by
      rw [dropWhile_append_all hd1, List.dropWhile_cons_of_neg (by decide)]
    have htake2 : ((d2 ++ '\n' :: s).takeWhile Char.isDigit) = d2 := by
      rw [takeWhile_append_all hd2, List.takeWhile_cons_of_neg (by decide)]
      simp
    have hdrop2 : ((d2 ++ '\n' :: s).dropWhile Char.isDigit) = '\n' :: s := by
      rw [dropWhile_append_all hd2, List.dropWhile_cons_of_neg (by decide)]
    rw [htake, hdrop, hie]
    simp only [Bool.false_eq_true, if_false]
    rw [htake2, hdrop2]

lemma capTokB : CapTok captureB := by
  intro t s ht
  have hall := tokWF_all_dOD ht
  have hne : t ≠ [] := by
    intro he
    subst he
    simp [tokWF] at ht
  unfold captureB
  have htake : ((t ++ '\n' :: s).takeWhile digitOrDot) = t := by
    rw [takeWhile_append_all hall, List.takeWhile_cons_of_neg (by decide)]
    simp
  have hdrop : ((t ++ '\n' :: s).dropWhile digitOrDot) = '\n' :: s := by
    rw [dropWhile_append_all hall, List.dropWhile_cons_of_neg (by decide)]
  rw [htake, hdrop, isEmpty_eq_false_of_ne_nil hne]
  simp

end TokenLemmas

section ReportLemmas

lemma scanEvents_step_none {l0 : Char} {ls : List Char}
    {cap : List Char → Option (List Char × List Char)} (hcap : CapOK cap)
    {c : Char} {rest : List Char}
    (hm : matchEvent (l0 :: ls) cap (c :: rest) = none) :
    scanEvents (l0 :: ls) cap (c :: rest) = scanEvents (l0 :: ls) cap rest := by
  rw [scanEvents_cons hcap, hm]

lemma scanEvents_step_some {l0 : Char} {ls : List Char}
    {cap : List Char → Option (List Char × List Char)} (hcap : CapOK cap)
    {c : Char} {rest tok r : List Char}
    (hm : matchEvent (l0 :: ls) cap (c :: rest) = some (tok, r)) :
    scanEvents (l0 :: ls) cap (c :: rest) = tok :: scanEvents (l0 :: ls) cap r := by
  rw [scanEvents_cons hcap, hm]

lemma matchLit_end_vs_start (r : List Char) :
    matchLit ['s','i','l','e','n','c','e','_','e','n','d',':']
      ('s':: 'i':: 'l':: 'e':: 'n':: 'c':: 'e':: '_':: 's'::r) = none := rfl

lemma matchLit_end_vs_tart (r : List Char) :
    matchLit ['s','i','l','e','n','c','e','_','e','n','d',':'] ('s':: 't'::r) = none := rfl

lemma matchLit_start_vs_end (r : List Char) :
    matchLit ['s','i','l','e','n','c','e','_','s','t','a','r','t',':']
      ('s':: 'i':: 'l':: 'e':: 'n':: 'c':: 'e':: '_':: 'e'::r) = none := rfl

lemma matchLit_start_full (r : List Char) :
    matchLit ['s','i','l','e','n','c','e','_','s','t','a','r','t',':']
      ('s':: 'i':: 'l':: 'e':: 'n':: 'c':: 'e':: '_':: 's':: 't':: 'a':: 'r':: 't':: ':'::r) = some r := rfl

lemma matchLit_end_full (r : List Char) :
    matchLit ['s','i','l','e','n','c','e','_','e','n','d',':']
      ('s':: 'i':: 'l':: 'e':: 'n':: 'c':: 'e':: '_':: 'e':: 'n':: 'd':: ':'::r) = some r := rfl

lemma dropSpace_token {t : List Char} (ht : tokWF t = true) (s : List Char) :
    (' ' :: (t ++ '\n' :: s)).dropWhile isSpaceJS = t ++ '\n' :: s := by
  rw [List.dropWhile_cons_of_pos (by decide)]
  cases t with
  | nil => exact absurd ht (by decide)
  | cons c t' =>
    have hc : c.isDigit = true := tokWF_headDigit ht
    rw [List.cons_append,
      List.dropWhile_cons_of_neg
        (by rw [isSpaceJS_eq_false_of_digitOrDot (digitOrDot_of_digit hc)]; simp)]

lemma token_tail_ne_s {t : List Char} (ht : tokWF t = true) :
    ∀ c ∈ t ++ ['\n'], c ≠ 's' := by
  intro c hc
  rcases List.mem_append.mp hc with h | h
  · exact digitOrDot_ne (tokWF_all_dOD ht c h) (by decide)
  · rw [List.mem_singleton] at h
    subst h
    decide

lemma scanStart_startLine {cap : List Char → Option (List Char × List Char)}
    (hcap : CapOK cap) (hcaptok : CapTok cap) {t : List Char} (ht : tokWF t = true)
    (s : List Char) :
    scanEvents startLit cap (startLine t ++ s) = t :: scanEvents startLit cap s := by
  unfold startLine startLit
  simp only [List.cons_append, List.append_assoc, List.nil_append, List.singleton_append]
  have hm : matchEvent ['s','i','l','e','n','c','e','_','s','t','a','r','t',':'] cap
      ('s':: 'i':: 'l':: 'e':: 'n':: 'c':: 'e':: '_':: 's':: 't':: 'a':: 'r':: 't':: ':':: ' '::(t ++ '\n' :: s)) =
      some (t, '\n' :: s) := by
    unfold matchEvent
    rw [matchLit_start_full]
    dsimp only
    rw [dropSpace_token ht]
    exact hcaptok t s ht
  rw [scanEvents_step_some hcap hm, scanEvents_skip_head hcap (by decide) s]

lemma scanEnd_endLine {cap : List Char → Option (List Char × List Char)}
    (hcap : CapOK cap) (hcaptok : CapTok cap) {t : List Char} (ht : tokWF t = true)
    (s : List Char) :
    scanEvents endLit cap (endLine t ++ s) = t :: scanEvents endLit cap s := by
  unfold endLine endLit
  simp only [List.cons_append, List.append_assoc, List.nil_append, List.singleton_append]
  have hm : matchEvent ['s','i','l','e','n','c','e','_','e','n','d',':'] cap
      ('s':: 'i':: 'l':: 'e':: 'n':: 'c':: 'e':: '_':: 'e':: 'n':: 'd':: ':':: ' '::(t ++ '\n' :: s)) =
      some (t, '\n' :: s) := by
    unfold matchEvent
    rw [matchLit_end_full]
    dsimp only
    rw [dropSpace_token ht]
    exact hcaptok t s ht
  rw [scanEvents_step_some hcap hm, scanEvents_skip_head hcap (by decide) s]

lemma scanEnd_skip_startLine {cap : List Char → Option (List Char × List Char)}
    (hcap : CapOK cap) {t : List Char} (ht : tokWF t = true) (s : List Char) :
    scanEvents endLit cap (startLine t ++ s) = scanEvents endLit cap s := by
  unfold startLine startLit endLit
  simp only [List.cons_append, List.append_assoc, List.nil_append, List.singleton_append]
  have hm0 : matchEvent ['s','i','l','e','n','c','e','_','e','n','d',':'] cap
      ('s':: 'i':: 'l':: 'e':: 'n':: 'c':: 'e':: '_':: 's':: 't':: 'a':: 'r':: 't':: ':':: ' '::(t ++ '\n' :: s)) =
      none := by
    unfold matchEvent
    rw [matchLit_end_vs_start]
  rw [scanEvents_step_none hcap hm0]
  rw [show ('i':: 'l':: 'e':: 'n':: 'c':: 'e':: '_':: 's':: 't':: 'a':: 'r':: 't':: ':':: ' '::(t ++ '\n' :: s) : List Char) =
    ['i','l','e','n','c','e','_'] ++ ('s':: 't':: 'a':: 'r':: 't':: ':':: ' '::(t ++ '\n' :: s)) from rfl]
  rw [scanEvents_skip_run hcap (by intro c hc; fin_cases hc <;> decide) _]
  have hm8 : matchEvent ['s','i','l','e','n','c','e','_','e','n','d',':'] cap
      ('s':: 't':: 'a':: 'r':: 't':: ':':: ' '::(t ++ '\n' :: s)) = none := by
    unfold matchEvent
    rw [matchLit_end_vs_tart]
  rw [scanEvents_step_none hcap hm8]
  rw [show ('t':: 'a':: 'r':: 't':: ':':: ' '::(t ++ '\n' :: s) : List Char) =
    (['t','a','r','t',':',' '] ++ (t ++ ['\n'])) ++ s by simp]
  apply scanEvents_skip_run hcap
  intro c hc
  rcases List.mem_append.mp hc with h | h
  · fin_cases h <;> decide
  · exact token_tail_ne_s ht c h

lemma scanStart_skip_endLine {cap : List Char → Option (List Char × List Char)}
    (hcap : CapOK cap) {t : List Char} (ht : tokWF t = true) (s : List Char) :
    scanEvents startLit cap (endLine t ++ s) = scanEvents startLit cap s := by
  unfold endLine endLit startLit
  simp only [List.cons_append, List.append_assoc, List.nil_append, List.singleton_append]
  have hm0 : matchEvent ['s','i','l','e','n','c','e','_','s','t','a','r','t',':'] cap
      ('s':: 'i':: 'l':: 'e':: 'n':: 'c':: 'e':: '_':: 'e':: 'n':: 'd':: ':':: ' '::(t ++ '\n' :: s)) =
      none := by
    unfold matchEvent
    rw [matchLit_start_vs_end]
  rw [scanEvents_step_none hcap hm0]
  rw [show ('i':: 'l':: 'e':: 'n':: 'c':: 'e':: '_':: 'e':: 'n':: 'd':: ':':: ' '::(t ++ '\n' :: s) : List Char) =
    (['i','l','e','n','c','e','_','e','n','d',':',' '] ++ (t ++ ['\n'])) ++ s by simp]
  apply scanEvents_skip_run hcap
  intro c hc
  rcases List.mem_append.mp hc with h | h
  · fin_cases h <;> decide
  · exact token_tail_ne_s ht c h

end ReportLemmas

section ReportScanClaims

lemma scanStart_report {cap : List Char → Option (List Char × List Char)}
    (hcap : CapOK cap) (hcaptok : CapTok cap) :
    ∀ (P : List (List Char × List Char)) (dang : Option (List Char)),
      (∀ p ∈ P, tokWF p.1 = true ∧ tokWF p.2 = true) →
      (∀ t, dang = some t → tokWF t = true) →
      scanEvents startLit cap (reportText P dang) =
        P.map Prod.fst ++ (match dang with | some t => [t] | none => []) := by
  intro P
  induction P with
  | nil =>
    intro dang hP hd
    cases dang with
    | none => rfl
    | some t =>
      rw [show reportText [] (some t) = startLine t ++ [] by simp [reportText]]
      rw [scanStart_startLine hcap hcaptok (hd t rfl) []]
      rfl
  | cons pair rest ih =>
    intro dang hP hd
    obtain ⟨a, b⟩ := pair
    rw [show reportText ((a, b) :: rest) dang =
      startLine a ++ (endLine b ++ reportText rest dang) from rfl]
    rw [scanStart_startLine hcap hcaptok (hP (a, b) (by simp)).1 _]
    rw [scanStart_skip_endLine hcap (hP (a, b) (by simp)).2 _]
    rw [ih dang (fun p hp => hP p (by simp [hp])) hd]
    rfl

lemma scanEnd_report {cap : List Char → Option (List Char × List Char)}
    (hcap : CapOK cap) (hcaptok : CapTok cap) :
    ∀ (P : List (List Char × List Char)) (dang : Option (List Char)),
      (∀ p ∈ P, tokWF p.1 = true ∧ tokWF p.2 = true) →
      (∀ t, dang = some t → tokWF t = true) →
      scanEvents endLit cap (reportText P dang) = P.map Prod.snd := by
  intro P
  induction P with
  | nil =>
    intro dang hP hd
    cases dang with
    | none => rfl
    | some t =>
      rw [show reportText [] (some t) = startLine t ++ [] by simp [reportText]]
      rw [scanEnd_skip_startLine hcap (hd t rfl) []]
      rfl
  | cons pair rest ih =>
    intro dang hP hd
    obtain ⟨a, b⟩ := pair
    rw [show reportText ((a, b) :: rest) dang =
      startLine a ++ (endLine b ++ reportText rest dang) from rfl]
    rw [scanEnd_skip_startLine hcap (hP (a, b) (by simp)).1 _]
    rw [scanEnd_endLine hcap hcaptok (hP (a, b) (by simp)).2 _]
    rw [ih dang (fun p hp => hP p (by simp [hp])) hd]
    rfl

/-- C9: for every report text as the detection engine produces it —
chronological `silence_start:`/`silence_end:` lines for matched interval
pairs, with at most one dangling start (an interval still open at end of
stream) — the lengths of the extracted start and end sequences differ by
at most one, the excess being exactly the dangling start; this holds for
both variants' capture groups. -/
theorem c9_start_end_length_balance (P : List (List Char × List Char))
    (dang : Option (List Char))
    (hP : ∀ p ∈ P, tokWF p.1 = true ∧ tokWF p.2 = true)
    (hd : ∀ t, dang = some t → tokWF t = true) :
    ((V1.silenceEnds ⟨reportText P dang⟩).length ≤
        (V1.silenceStarts ⟨reportText P dang⟩).length ∧
      (V1.silenceStarts ⟨reportText P dang⟩).length ≤
        (V1.silenceEnds ⟨reportText P dang⟩).length + 1) ∧
    ((V2.silenceEnds ⟨reportText P dang⟩).length ≤
        (V2.silenceStarts ⟨reportText P dang⟩).length ∧
      (V2.silenceStarts ⟨reportText P dang⟩).length ≤
        (V2.silenceEnds ⟨reportText P dang⟩).length + 1) := by
  unfold V1.silenceStarts V1.silenceEnds V2.silenceStarts V2.silenceEnds
  unfold V1.silenceStartToks V1.silenceEndToks V2.silenceStartToks V2.silenceEndToks
  rw [show (String.data ⟨reportText P dang⟩) = reportText P dang from rfl]
  rw [scanStart_report capOK_A capTokA P dang hP hd,
    scanEnd_report capOK_A capTokA P dang hP hd,
    scanStart_report capOK_B capTokB P dang hP hd,
    scanEnd_report capOK_B capTokB P dang hP hd]
  simp only [List.length_map, List.length_append]
  cases dang <;> simp

/-- Witness for C9 on the report with one matched pair (start 1, end 2)
and a dangling start 3: two starts, one end. -/
theorem c9_start_end_length_balance_witness :
    ((V1.silenceEnds ⟨reportText [(['1'], ['2'])] (some ['3'])⟩).length ≤
        (V1.silenceStarts ⟨reportText [(['1'], ['2'])] (some ['3'])⟩).length ∧
      (V1.silenceStarts ⟨reportText [(['1'], ['2'])] (some ['3'])⟩).length ≤
        (V1.silenceEnds ⟨reportText [(['1'], ['2'])] (some ['3'])⟩).length + 1) ∧
    ((V2.silenceEnds ⟨reportText [(['1'], ['2'])] (some ['3'])⟩).length ≤
        (V2.silenceStarts ⟨reportText [(['1'], ['2'])] (some ['3'])⟩).length ∧
      (V2.silenceStarts ⟨reportText [(['1'], ['2'])] (some ['3'])⟩).length ≤
        (V2.silenceEnds ⟨reportText [(['1'], ['2'])] (some ['3'])⟩).length + 1) :=
  c9_start_end_length_balance [(['1'], ['2'])] (some ['3'])
    (by decide)
    (by intro t ht; injection ht with h; subst h; decide)

end ReportScanClaims

section EquivalenceLemmas

lemma takeWhile_mono_split {p q : Char → Bool} (hpq : ∀ c, p c = true → q c = true) :
    ∀ l : List Char, l.takeWhile q = l.takeWhile p ++ (l.dropWhile p).takeWhile q ∧
      l.dropWhile q = (l.dropWhile p).dropWhile q := by
  intro l
  induction l with
  | nil => exact ⟨rfl, rfl⟩
  | cons c cs ih =>
    by_cases hp : p c = true
    · have hq := hpq c hp
      rw [List.takeWhile_cons_of_pos hq, List.takeWhile_cons_of_pos hp,
        List.dropWhile_cons_of_pos hq, List.dropWhile_cons_of_pos hp,
        List.cons_append]
      exact ⟨by rw [ih.1], ih.2⟩
    · rw [List.takeWhile_cons_of_neg hp, List.dropWhile_cons_of_neg hp]
      simp

lemma digit_empty_of_dOD_empty {x : List Char}
    (h : (x.takeWhile digitOrDot).isEmpty = true) :
    (x.takeWhile Char.isDigit).isEmpty = true := by
  cases x with
  | nil => rfl
  | cons c x' =>
    by_cases hc : digitOrDot c = true
    · rw [List.takeWhile_cons_of_pos hc] at h
      exact absurd h (by simp)
    · have : c.isDigit = false := by
        rcases hb : c.isDigit with _ | _
        · rfl
        · exact absurd (digitOrDot_of_digit hb) hc
      rw [List.takeWhile_cons_of_neg (by rw [this]; simp)]
      rfl

lemma captureA_none_of_digit_empty {x : List Char}
    (h : (x.takeWhile Char.isDigit).isEmpty = true) : captureA x = none := by
  unfold captureA
  rw [h]
  rfl

lemma captureB_none_elim {x : List Char} (h : captureB x = none) :
    (x.takeWhile digitOrDot).isEmpty = true := by
  unfold captureB at h
  split at h
  · assumption
  · exact absurd h (by simp)

lemma captureB_some_elim {x t r : List Char} (h : captureB x = some (t, r)) :
    t = x.takeWhile digitOrDot ∧ r = x.dropWhile digitOrDot := by
  unfold captureB at h
  split at h
  · exact absurd h (by simp)
  · simp only [Option.some.injEq, Prod.mk.injEq] at h
    exact ⟨h.1.symm, h.2.symm⟩

lemma headDigit_of_captureB {x t r : List Char} (h : captureB x = some (t, r))
    (ht : headDigit t = true) : headDigit x = true := by
  obtain ⟨rfl, -⟩ := captureB_some_elim h
  cases x with
  | nil => exact absurd ht (by decide)
  | cons c x' =>
    by_cases hc : digitOrDot c = true
    · rw [List.takeWhile_cons_of_pos hc] at ht
      exact ht
    · rw [List.takeWhile_cons_of_neg hc] at ht
      exact absurd ht (by decide)

lemma head_dropWhile_digit_false {x : List Char} {c2 : Char} {m2 : List Char}
    (hm : x.dropWhile Char.isDigit = c2 :: m2) : c2.isDigit = false := by
  have h2 := List.head?_dropWhile_not Char.isDigit x
  rw [hm] at h2
  simpa using h2

end EquivalenceLemmas

section CaptureComparison

lemma parseTok_eq_of_dot {t d1 r2 : List Char}
    (ht : t.takeWhile Char.isDigit = d1) (hr : t.dropWhile Char.isDigit = '.' :: r2) :
    parseTok t =
      if (d1.isEmpty && (r2.takeWhile Char.isDigit).isEmpty) = true then JSNum.nan
      else JSNum.val ((digitsToNat d1 : ℚ) +
        (digitsToNat (r2.takeWhile Char.isDigit) : ℚ) /
          (10 : ℚ) ^ (r2.takeWhile Char.isDigit).length) := by
  unfold parseTok
  rw [hr, ht]
  rfl

lemma parseTok_extend {d1 d2 e : List Char}
    (hd1 : ∀ c ∈ d1, c.isDigit = true) (hd2 : ∀ c ∈ d2, c.isDigit = true)
    (he : ∀ c m, e = c :: m → c.isDigit = false) :
    parseTok ((d1 ++ '.' :: d2) ++ e) = parseTok (d1 ++ '.' :: d2) := by
  have hassoc : (d1 ++ '.' :: d2) ++ e = d1 ++ '.' :: (d2 ++ e) := by simp
  rw [hassoc]
  have ht1 : (d1 ++ '.' :: (d2 ++ e)).takeWhile Char.isDigit = d1 := by
    rw [takeWhile_append_all hd1, List.takeWhile_cons_of_neg (by decide)]
    simp
  have hr1 : (d1 ++ '.' :: (d2 ++ e)).dropWhile Char.isDigit = '.' :: (d2 ++ e) := by
    rw [dropWhile_append_all hd1, List.dropWhile_cons_of_neg (by decide)]
  have ht2 : (d1 ++ '.' :: d2).takeWhile Char.isDigit = d1 := by
    rw [takeWhile_append_all hd1, List.takeWhile_cons_of_neg (by decide)]
    simp
  have hr2 : (d1 ++ '.' :: d2).dropWhile Char.isDigit = '.' :: d2 := by
    rw [dropWhile_append_all hd1, List.dropWhile_cons_of_neg (by decide)]
  have hd2e : (d2 ++ e).takeWhile Char.isDigit = d2 := by
    rw [takeWhile_append_all hd2]
    cases e with
    | nil => simp
    | cons c m =>
      rw [List.takeWhile_cons_of_neg (by rw [he c m rfl]; simp)]
      simp
  have hd2self : d2.takeWhile Char.isDigit = d2 := by
    have h := takeWhile_append_all hd2 ([] : List Char)
    simpa using h
  rw [parseTok_eq_of_dot ht1 hr1, parseTok_eq_of_dot ht2 hr2, hd2e, hd2self]

lemma captureAB_relation {l : List Char} (hd : headDigit l = true) :
    ∃ tA e rB, captureA l = some (tA, e ++ rB) ∧ captureB l = some (tA ++ e, rB) ∧
      (∀ c ∈ e, digitOrDot c = true) ∧ parseTok (tA ++ e) = parseTok tA := by
  have hie : (l.takeWhile Char.isDigit).isEmpty = false := by
    cases l with
    | nil => exact absurd hd (by decide)
    | cons c l' =>
      rw [List.takeWhile_cons_of_pos (by exact hd)]
      rfl
  have hdodie : (l.takeWhile digitOrDot).isEmpty = false := by
    cases l with
    | nil => exact absurd hd (by decide)
    | cons c l' =>
      rw [List.takeWhile_cons_of_pos (digitOrDot_of_digit (by exact hd))]
      rfl
  have hd1 : ∀ c ∈ l.takeWhile Char.isDigit, c.isDigit = true :=
    fun c hc => List.mem_takeWhile_imp hc
  have hBsome : captureB l = some (l.takeWhile digitOrDot, l.dropWhile digitOrDot) := by
    unfold captureB
    rw [hdodie]
    simp
  have hsplit := @takeWhile_mono_split Char.isDigit digitOrDot (fun c h => digitOrDot_of_digit h) l
  cases hm : l.dropWhile Char.isDigit with
  | nil =>
    have hA : captureA l = some (l.takeWhile Char.isDigit, []) := by
      unfold captureA
      rw [hie, hm]
      simp only [Bool.false_eq_true, if_false]
    refine ⟨l.takeWhile Char.isDigit, [], [], ?_, ?_, by simp, by simp⟩
    · rw [hA]
      rfl
    · rw [hBsome, hsplit.1, hsplit.2, hm]
      rfl
  | cons c2 m2 =>
    have hc2 : c2.isDigit = false := head_dropWhile_digit_false hm
    by_cases hdot : c2 = '.'
    · subst hdot
      have hA : captureA l =
          some (l.takeWhile Char.isDigit ++ '.' :: m2.takeWhile Char.isDigit,
            m2.dropWhile Char.isDigit) := by
        unfold captureA
        rw [hie, hm]
        simp only [Bool.false_eq_true, if_false]
      have hd2 : ∀ c ∈ m2.takeWhile Char.isDigit, c.isDigit = true :=
        fun c hc => List.mem_takeWhile_imp hc
      have hsplitm := @takeWhile_mono_split Char.isDigit digitOrDot (fun c h => digitOrDot_of_digit h) m2
      refine ⟨l.takeWhile Char.isDigit ++ '.' :: m2.takeWhile Char.isDigit,
        (m2.dropWhile Char.isDigit).takeWhile digitOrDot,
        (m2.dropWhile Char.isDigit).dropWhile digitOrDot, ?_, ?_, ?_, ?_⟩
      · rw [hA, List.takeWhile_append_dropWhile]
      · rw [hBsome, hsplit.1, hsplit.2, hm,
          List.takeWhile_cons_of_pos (by decide : digitOrDot '.' = true),
          List.dropWhile_cons_of_pos (by decide : digitOrDot '.' = true),
          hsplitm.1, hsplitm.2]
        simp [List.append_assoc]
      · exact fun c hc => List.mem_takeWhile_imp hc
      · apply parseTok_extend hd1 hd2
        intro c m hcm
        cases hmd : m2.dropWhile Char.isDigit with
        | nil => rw [hmd] at hcm; simp at hcm
        | cons c0 t0 =>
          have hc0 : c0.isDigit = false := head_dropWhile_digit_false hmd
          rw [hmd] at hcm
          by_cases hdod0 : digitOrDot c0 = true
          · rw [List.takeWhile_cons_of_pos hdod0] at hcm
            rw [List.cons_eq_cons] at hcm
            rw [← hcm.1]
            exact hc0
          · rw [List.takeWhile_cons_of_neg hdod0] at hcm
            simp at hcm
    · have hdodc2 : digitOrDot c2 = false := by
        unfold digitOrDot
        rw [hc2, beq_eq_false_iff_ne.mpr hdot]
        rfl
      have hA : captureA l = some (l.takeWhile Char.isDigit, c2 :: m2) := by
        unfold captureA
        rw [hie, hm]
        simp only [Bool.false_eq_true, if_false]
        split
        next heq =>
          rw [List.cons_eq_cons] at heq
          exact absurd heq.1 hdot
        next => rfl
      refine ⟨l.takeWhile Char.isDigit, [], c2 :: m2, ?_, ?_, by simp, by simp⟩
      · rw [hA]
        rfl
      · rw [hBsome, hsplit.1, hsplit.2, hm,
          List.takeWhile_cons_of_neg (by rw [hdodc2]; simp),
          List.dropWhile_cons_of_neg (by rw [hdodc2]; simp)]

end CaptureComparison

section VariantEquivalence

lemma scanAB_values :
    ∀ (n : Nat) (s : List Char), s.length ≤ n →
      (∀ tok ∈ scanEvents endLit captureB s, headDigit tok = true) →
      (scanEvents endLit captureA s).map parseTok =
        (scanEvents endLit captureB s).map parseTok := by
  intro n
  induction n with
  | zero =>
    intro s hlen _
    have hnil : s = [] := List.length_eq_zero.mp (Nat.le_zero.mp hlen)
    subst hnil
    rfl
  | succ n ih =>
    intro s hlen hHead
    cases s with
    | nil => rfl
    | cons c rest =>
      rw [show endLit = 's' :: ['i','l','e','n','c','e','_','e','n','d',':'] from rfl]
        at hHead ⊢
      simp only [List.length_cons] at hlen
      cases hl : matchLit ('s' :: ['i','l','e','n','c','e','_','e','n','d',':']) (c :: rest) with
      | none =>
        have hA : matchEvent ('s' :: ['i','l','e','n','c','e','_','e','n','d',':'])
            captureA (c :: rest) = none := by
          unfold matchEvent
          rw [hl]
        have hB : matchEvent ('s' :: ['i','l','e','n','c','e','_','e','n','d',':'])
            captureB (c :: rest) = none := by
          unfold matchEvent
          rw [hl]
        rw [scanEvents_step_none capOK_A hA, scanEvents_step_none capOK_B hB]
        rw [scanEvents_step_none capOK_B hB] at hHead
        exact ih rest (by omega) hHead
      | some r1 =>
        cases hB : captureB (r1.dropWhile isSpaceJS) with
        | none =>
          have hAnone : captureA (r1.dropWhile isSpaceJS) = none :=
            captureA_none_of_digit_empty (digit_empty_of_dOD_empty (captureB_none_elim hB))
          have hA : matchEvent ('s' :: ['i','l','e','n','c','e','_','e','n','d',':'])
              captureA (c :: rest) = none := by
            unfold matchEvent
            rw [hl]
            exact hAnone
          have hB' : matchEvent ('s' :: ['i','l','e','n','c','e','_','e','n','d',':'])
              captureB (c :: rest) = none := by
            unfold matchEvent
            rw [hl]
            exact hB
          rw [scanEvents_step_none capOK_A hA, scanEvents_step_none capOK_B hB']
          rw [scanEvents_step_none capOK_B hB'] at hHead
          exact ih rest (by omega) hHead
        | some pr =>
          obtain ⟨tB, rB⟩ := pr
          have hmB : matchEvent ('s' :: ['i','l','e','n','c','e','_','e','n','d',':'])
              captureB (c :: rest) = some (tB, rB) := by
            unfold matchEvent
            rw [hl]
            exact hB
          rw [scanEvents_step_some capOK_B hmB] at hHead
          have htB : headDigit tB = true := hHead tB (by simp)
          have hheadr2 : headDigit (r1.dropWhile isSpaceJS) = true :=
            headDigit_of_captureB hB htB
          obtain ⟨tA, e, rB', hA2, hB2, he, hparse⟩ := captureAB_relation hheadr2
          rw [hB] at hB2
          simp only [Option.some.injEq, Prod.mk.injEq] at hB2
          obtain ⟨htBeq, hrBeq⟩ := hB2
          subst hrBeq
          have hmA : matchEvent ('s' :: ['i','l','e','n','c','e','_','e','n','d',':'])
              captureA (c :: rest) = some (tA, e ++ rB) := by
            unfold matchEvent
            rw [hl]
            exact hA2
          rw [scanEvents_step_some capOK_A hmA, scanEvents_step_some capOK_B hmB]
          rw [scanEvents_skip_run capOK_A
            (fun x hx => digitOrDot_ne (he x hx) (by decide)) rB]
          simp only [List.map_cons]
          rw [List.cons_eq_cons]
          constructor
          · rw [htBeq, hparse]
          · have hlenB := matchEvent_length capOK_B hmB
            simp only [List.length_cons] at hlenB
            exact ih rB (by omega) (fun tok htok => hHead tok (List.mem_cons_of_mem _ htok))

end VariantEquivalence

/-- C10 counterexample: on the report text `"silence_end: ."` (where the
two capture groups disagree — `chapter-cracker.ts` finds no match while
`part_000` captures the digitless token `"."`), the two variants'
core logic produces different chapter documents for the same inputs. -/
theorem c10_counterexample :
    V1.run 0 "silence_end: ." 0 "" (JSNum.val 1) =
      Except.ok ";FFMETADATA1\n[CHAPTER]\nTIMEBASE=1/1000\nSTART=0\nEND=1000\ntitle=Chapter 1\n\n" ∧
    V2.run 0 "silence_end: ." 0 "" (JSNum.val 1) =
      Except.ok ";FFMETADATA1\n[CHAPTER]\nTIMEBASE=1/1000\nSTART=0\nEND=NaN\ntitle=Chapter 1\n\n[CHAPTER]\nTIMEBASE=1/1000\nSTART=NaN\nEND=1000\ntitle=Chapter 2\n\n" ∧
    V1.run 0 "silence_end: ." 0 "" (JSNum.val 1) ≠
      V2.run 0 "silence_end: ." 0 "" (JSNum.val 1) := by
  have h0 : ⌊(0 : ℚ) * 1000⌋ = 0 := by norm_num
  have h1 : ⌊(1 : ℚ) * 1000⌋ = 1000 := by norm_num
  have hendsA : V1.silenceEnds "silence_end: ." = [] := by decide
  have hendsB : V2.silenceEnds "silence_end: ." = [JSNum.nan] := by decide
  have hv1 : V1.run 0 "silence_end: ." 0 "" (JSNum.val 1) =
      Except.ok ";FFMETADATA1\n[CHAPTER]\nTIMEBASE=1/1000\nSTART=0\nEND=1000\ntitle=Chapter 1\n\n" := by
    rw [V1.run, hendsA]
    simp only [metadata, chapters, chaptersFrom, metadataRecords, numOut, floorMs, h0, h1,
      Int.floor_intCast]
    exact congrArg Except.ok (by decide)
  have hv2 : V2.run 0 "silence_end: ." 0 "" (JSNum.val 1) =
      Except.ok ";FFMETADATA1\n[CHAPTER]\nTIMEBASE=1/1000\nSTART=0\nEND=NaN\ntitle=Chapter 1\n\n[CHAPTER]\nTIMEBASE=1/1000\nSTART=NaN\nEND=1000\ntitle=Chapter 2\n\n" := by
    rw [V2.run]
    rw [if_neg (by simp), if_neg (by simp), if_neg (by simp)]
    rw [hendsB]
    simp only [metadata, chapters, chaptersFrom, metadataRecords, numOut, floorMs, jsPred,
      h0, h1, Int.floor_intCast]
    exact congrArg Except.ok (by decide)
  refine ⟨hv1, hv2, ?_⟩
  rw [hv1, hv2]
  intro h
  injection h with h2
  have h3 := congrArg String.data h2
  exact absurd h3 (by decide)

/-- C10 amended: the two variants' core logic (extraction, inference,
encoding) produces byte-identical documents whenever the probed duration
is a number (not `NaN` — `part_000` aborts on `NaN` while
`chapter-cracker.ts` proceeds) and every numeric token following a
`silence_end:` marker begins with a digit (on digitless tokens such as
`"."` the two capture groups disagree, as the counterexample shows). -/
theorem c10_core_equivalence_amended (ss ps : String) (d : JSNum)
    (hd : d ≠ JSNum.nan)
    (hHead : ∀ tok ∈ V2.silenceEndToks ss, headDigit tok = true) :
    V1.run 0 ss 0 ps d = V2.run 0 ss 0 ps d := by
  have hEnds : V1.silenceEnds ss = V2.silenceEnds ss := by
    unfold V1.silenceEnds V2.silenceEnds V1.silenceEndToks V2.silenceEndToks
    exact scanAB_values ss.data.length ss.data (le_refl _)
      (fun tok htok => hHead tok htok)
  rw [V1.run, V2.run]
  rw [if_neg (by simp), if_neg (by simp), if_neg hd, hEnds]

/-- Witness for the C10 amended theorem on the well-formed report
`"silence_end: 3"` with duration 1. -/
theorem c10_core_equivalence_amended_witness :
    V1.run 0 "silence_end: 3" 0 "" (JSNum.val 1) =
      V2.run 0 "silence_end: 3" 0 "" (JSNum.val 1) :=
  c10_core_equivalence_amended "silence_end: 3" "" (JSNum.val 1)
    (by decide) (by decide)
